import Mathlib

/-!
Verification of the ERP data transformation engine (CSV tokenizer and record
assembler, SAP BAPI/RFC response transformer, JSON flattener, grouped numeric
aggregation, record validator) against its natural-language specification.

Python strings are modelled as `List Char`; Python dicts as insertion-ordered
association lists (`List (key × value)`) with first-match lookup, in-place
overwrite on existing keys and append on new keys, matching CPython dict
semantics.  Fallible code paths (a `cdef dict`/`cdef str` coercion that would
raise `TypeError`) are modelled with `Option`.
-/

namespace ERP

/-- Whitespace as recognised by Python's `str.strip()` (ASCII subset, which is
all the engine's inputs exercise). -/
def pyIsSpace (c : Char) : Bool :=
  c = ' ' || c = '\t' || c = '\n' || c = '\r' || c = '\x0b' || c = '\x0c'

/-- Python `str.strip()`: remove leading and trailing whitespace. -/
def pyStrip (s : List Char) : List Char :=
  ((s.dropWhile pyIsSpace).reverse.dropWhile pyIsSpace).reverse

/-- ASCII decimal digit (the digits SAP key/date/amount fields contain). -/
def isDigitChar (c : Char) : Bool := '0' ≤ c && c ≤ '9'

/-- Python `str.isdigit()`: nonempty and every character a digit. -/
def pyIsDigit (s : List Char) : Bool := !s.isEmpty && s.all isDigitChar

/-- `string_value.replace('.', '').replace(',', '').replace('-', '')` from the
amount test of `_transform_sap_field`. -/
def removeAmountPunct (s : List Char) : List Char :=
  s.filter fun c => !(c = '.' || c = ',' || c = '-')

/-- Python `str.replace(',', '.')` (replaces every occurrence). -/
def replaceCommaDot (s : List Char) : List Char :=
  s.map fun c => if c = ',' then '.' else c

/-- Python `s.lstrip('0') or '0'`. -/
def lstripZerosOr0 (s : List Char) : List Char :=
  match s.dropWhile (· = '0') with
  | [] => ['0']
  | t => t

/-- `f"{s[0:4]}-{s[4:6]}-{s[6:8]}"`: the YYYYMMDD → YYYY-MM-DD slicing. -/
def dateFmt (s : List Char) : List Char :=
  s.take 4 ++ '-' :: ((s.drop 4).take 2 ++ '-' :: (s.drop 6).take 2)

/-- `f"{s[0:2]}:{s[2:4]}:{s[4:6]}"`: the HHMMSS → HH:MM:SS slicing. -/
def timeFmt (s : List Char) : List Char :=
  s.take 2 ++ ':' :: ((s.drop 2).take 2 ++ ':' :: (s.drop 4).take 2)

/-- The branch chain of `SAPTransformerCy._transform_sap_field` applied to the
already-stripped value (the source computes `string_value = value.strip()`
first and then runs this chain on `string_value`). -/
def normCore (s : List Char) : List Char :=
  if s.isEmpty then []
  else if s.length = 8 ∧ pyIsDigit s then
    if s ≠ "00000000".toList then dateFmt s else []
  else if s.length = 6 ∧ pyIsDigit s then timeFmt s
  else if pyIsDigit (removeAmountPunct s) then
    if ',' ∈ s ∧ '.' ∉ s then replaceCommaDot s else s
  else if pyIsDigit s ∧ s.length ≥ 8 then
    lstripZerosOr0 s
  else s

/-- `SAPTransformerCy._transform_sap_field` on a string value: strip, then run
the date/time/amount/material-number branch chain. -/
def transformSapField (value : List Char) : List Char :=
  normCore (pyStrip value)

/-! Elementary facts about `dropWhile` and `pyStrip` used for the idempotence
proof of the normalizer. -/

theorem dropWhile_idem (p : Char → Bool) (l : List Char) :
    (l.dropWhile p).dropWhile p = l.dropWhile p := by
  induction l with
  | nil => rfl
  | cons a l ih =>
    by_cases h : p a
    · rw [List.dropWhile_cons, if_pos h, ih]
    · rw [List.dropWhile_cons, if_neg h, List.dropWhile_cons, if_neg h]

theorem head_dropWhile_false (p : Char → Bool) (l : List Char) (a : Char)
    (t : List Char) (h : l.dropWhile p = a :: t) : p a = false := by
  induction l with
  | nil => simp at h
  | cons b l ih =>
    by_cases hb : p b
    · rw [List.dropWhile_cons, if_pos hb] at h; exact ih h
    · rw [List.dropWhile_cons, if_neg hb] at h
      cases h
      exact Bool.not_eq_true _ ▸ (by simpa using hb)

theorem dropWhile_suffix_decomp (p : Char → Bool) (l : List Char) :
    ∃ v, l = v ++ l.dropWhile p := by
  induction l with
  | nil => exact ⟨[], rfl⟩
  | cons a l ih =>
    by_cases h : p a
    · obtain ⟨v, hv⟩ := ih
      refine ⟨a :: v, ?_⟩
      rw [List.dropWhile_cons, if_pos h, List.cons_append, ← hv]
    · exact ⟨[], by rw [List.dropWhile_cons, if_neg h]; rfl⟩

theorem dropWhile_eq_self_of_head (p : Char → Bool) (l : List Char)
    (h : ∀ a t, l = a :: t → p a = false) : l.dropWhile p = l := by
  cases l with
  | nil => rfl
  | cons a t => rw [List.dropWhile_cons, if_neg]; simp [h a t rfl]

theorem pyStrip_idem (s : List Char) : pyStrip (pyStrip s) = pyStrip s := by
  show pyStrip (((s.dropWhile pyIsSpace).reverse.dropWhile pyIsSpace).reverse)
      = ((s.dropWhile pyIsSpace).reverse.dropWhile pyIsSpace).reverse
  set t := s.dropWhile pyIsSpace with ht
  set u := t.reverse.dropWhile pyIsSpace with hu
  have h1 : u.reverse.dropWhile pyIsSpace = u.reverse := by
    apply dropWhile_eq_self_of_head
    intro a w hw
    obtain ⟨v, hv⟩ := dropWhile_suffix_decomp pyIsSpace t.reverse
    rw [← hu] at hv
    have htu : t = u.reverse ++ v.reverse := by
      have := congrArg List.reverse hv
      simpa using this
    rw [hw] at htu
    exact head_dropWhile_false pyIsSpace s a (w ++ v.reverse) (by rw [← ht, htu]; rfl)
  show ((u.reverse.dropWhile pyIsSpace).reverse.dropWhile pyIsSpace).reverse = u.reverse
  rw [h1, List.reverse_reverse, hu, dropWhile_idem]

theorem pyStrip_eq_self_of_all (s : List Char)
    (h : ∀ c ∈ s, pyIsSpace c = false) : pyStrip s = s := by
  have h1 : s.dropWhile pyIsSpace = s := by
    apply dropWhile_eq_self_of_head
    intro a t hat; exact h a (by rw [hat]; exact List.mem_cons_self a t)
  have h2 : s.reverse.dropWhile pyIsSpace = s.reverse := by
    apply dropWhile_eq_self_of_head
    intro a t hat
    exact h a (by
      have : a ∈ s.reverse := by rw [hat]; exact List.mem_cons_self a t
      simpa using this)
  rw [pyStrip, h1, h2, List.reverse_reverse]

/-! Character-level facts: digits are neither whitespace nor amount
punctuation, and the characters the formatter inserts are not whitespace. -/

theorem digit_not_space (c : Char) (h : isDigitChar c = true) :
    pyIsSpace c = false := by
  cases hs : pyIsSpace c with
  | false => rfl
  | true =>
    exfalso
    unfold pyIsSpace at hs
    simp only [Bool.or_eq_true, decide_eq_true_eq] at hs
    rcases hs with ((((rfl | rfl) | rfl) | rfl) | rfl) | rfl <;>
      exact absurd h (by decide)

theorem digit_filter_amount (c : Char) (h : isDigitChar c = true) :
    (!(c = '.' || c = ',' || c = '-')) = true := by
  cases hp : (!(c = '.' || c = ',' || c = '-')) with
  | true => rfl
  | false =>
    exfalso
    simp only [Bool.not_eq_false', Bool.or_eq_true, decide_eq_true_eq] at hp
    rcases hp with (rfl | rfl) | rfl <;> exact absurd h (by decide)

theorem removeAmountPunct_of_digits (s : List Char)
    (h : ∀ c ∈ s, isDigitChar c = true) : removeAmountPunct s = s := by
  unfold removeAmountPunct
  rw [List.filter_eq_self]
  exact fun a ha => digit_filter_amount a (h a ha)

theorem all_digit_of_pyIsDigit (s : List Char) (h : pyIsDigit s = true) :
    ∀ c ∈ s, isDigitChar c = true := by
  intro c hc
  have := (Bool.and_eq_true _ _).mp h
  exact (List.all_eq_true.mp this.2) c hc

/-- Membership description of the characters of a date output. -/
theorem mem_dateFmt (s : List Char) (c : Char) (hc : c ∈ dateFmt s) :
    c ∈ s ∨ c = '-' := by
  unfold dateFmt at hc
  simp only [List.mem_append, List.mem_cons] at hc
  rcases hc with h | h | h | h | h
  · exact Or.inl (List.take_subset _ _ h)
  · exact Or.inr h
  · exact Or.inl (List.drop_subset _ _ (List.take_subset _ _ h))
  · exact Or.inr h
  · exact Or.inl (List.drop_subset _ _ (List.take_subset _ _ h))

/-- Membership description of the characters of a time output. -/
theorem mem_timeFmt (s : List Char) (c : Char) (hc : c ∈ timeFmt s) :
    c ∈ s ∨ c = ':' := by
  unfold timeFmt at hc
  simp only [List.mem_append, List.mem_cons] at hc
  rcases hc with h | h | h | h | h
  · exact Or.inl (List.take_subset _ _ h)
  · exact Or.inr h
  · exact Or.inl (List.drop_subset _ _ (List.take_subset _ _ h))
  · exact Or.inr h
  · exact Or.inl (List.drop_subset _ _ (List.take_subset _ _ h))

theorem length_dateFmt (s : List Char) (h : s.length = 8) :
    (dateFmt s).length = 10 := by
  unfold dateFmt
  simp only [List.length_append, List.length_cons, List.length_take,
    List.length_drop, h]
  omega

theorem length_timeFmt (s : List Char) (h : s.length = 6) :
    (timeFmt s).length = 8 := by
  unfold timeFmt
  simp only [List.length_append, List.length_cons, List.length_take,
    List.length_drop, h]
  omega

theorem removeAmountPunct_append (l₁ l₂ : List Char) :
    removeAmountPunct (l₁ ++ l₂) = removeAmountPunct l₁ ++ removeAmountPunct l₂ := by
  simp [removeAmountPunct]

theorem removeAmountPunct_dash_cons (l : List Char) :
    removeAmountPunct ('-' :: l) = removeAmountPunct l := rfl

/-- Removing the amount punctuation from a date output recovers the original
8 digits. -/
theorem removeAmountPunct_dateFmt (s : List Char) (h8 : s.length = 8)
    (hd : ∀ c ∈ s, isDigitChar c = true) :
    removeAmountPunct (dateFmt s) = s := by
  unfold dateFmt
  have htk : ∀ t : List Char, (∀ c ∈ t, c ∈ s) → removeAmountPunct t = t :=
    fun t ht => removeAmountPunct_of_digits t (fun c hc => hd c (ht c hc))
  rw [removeAmountPunct_append, removeAmountPunct_dash_cons,
    removeAmountPunct_append, removeAmountPunct_dash_cons,
    htk _ (fun c hc => List.take_subset _ _ hc),
    htk _ (fun c hc => List.drop_subset _ _ (List.take_subset _ _ hc)),
    htk _ (fun c hc => List.drop_subset _ _ (List.take_subset _ _ hc))]
  have h1 : (s.drop 6).take 2 = s.drop 6 :=
    List.take_of_length_le (by rw [List.length_drop, h8])
  have h2 : (s.drop 4).take 2 ++ s.drop 6 = s.drop 4 := by
    have : (s.drop 4).drop 2 = s.drop 6 := by
      rw [List.drop_drop]
    rw [← this, List.take_append_drop]
  rw [h1, h2, List.take_append_drop]

theorem not_isEmpty_of_length (s : List Char) (n : Nat) (h : s.length = n)
    (hn : n ≠ 0) : ¬s.isEmpty = true := by
  cases s with
  | nil =>
    have h0 : n = 0 := by simpa using h.symm
    exact absurd h0 hn
  | cons a t => simp

theorem pyIsDigit_false_of_mem (s : List Char) (c : Char) (hc : c ∈ s)
    (hnd : isDigitChar c = false) : pyIsDigit s = false := by
  cases h : pyIsDigit s with
  | false => rfl
  | true => exact absurd (all_digit_of_pyIsDigit s h c hc) (by simp [hnd])

/-! Branch-evaluation lemmas for `normCore`. -/

theorem normCore_empty (s : List Char) (h0 : s.isEmpty = true) :
    normCore s = [] := by
  unfold normCore; rw [if_pos h0]

theorem normCore_date (s : List Char) (h1 : s.length = 8 ∧ pyIsDigit s = true)
    (hz : s ≠ "00000000".toList) : normCore s = dateFmt s := by
  unfold normCore
  rw [if_neg (not_isEmpty_of_length s 8 h1.1 (by decide)), if_pos h1, if_pos hz]

theorem normCore_time (s : List Char) (h1 : ¬(s.length = 8 ∧ pyIsDigit s = true))
    (h2 : s.length = 6 ∧ pyIsDigit s = true) : normCore s = timeFmt s := by
  unfold normCore
  rw [if_neg (not_isEmpty_of_length s 6 h2.1 (by decide)), if_neg h1, if_pos h2]

theorem normCore_amount_replace (s : List Char) (h0 : ¬s.isEmpty = true)
    (h1 : ¬(s.length = 8 ∧ pyIsDigit s = true))
    (h2 : ¬(s.length = 6 ∧ pyIsDigit s = true))
    (h3 : pyIsDigit (removeAmountPunct s) = true)
    (h4 : ',' ∈ s ∧ '.' ∉ s) : normCore s = replaceCommaDot s := by
  unfold normCore
  rw [if_neg h0, if_neg h1, if_neg h2, if_pos h3, if_pos h4]

theorem normCore_amount_id (s : List Char) (h0 : ¬s.isEmpty = true)
    (h1 : ¬(s.length = 8 ∧ pyIsDigit s = true))
    (h2 : ¬(s.length = 6 ∧ pyIsDigit s = true))
    (h3 : pyIsDigit (removeAmountPunct s) = true)
    (h4 : ¬(',' ∈ s ∧ '.' ∉ s)) : normCore s = s := by
  unfold normCore
  rw [if_neg h0, if_neg h1, if_neg h2, if_pos h3, if_neg h4]

theorem normCore_default (s : List Char) (h0 : ¬s.isEmpty = true)
    (h1 : ¬(s.length = 8 ∧ pyIsDigit s = true))
    (h2 : ¬(s.length = 6 ∧ pyIsDigit s = true))
    (h3 : ¬pyIsDigit (removeAmountPunct s) = true)
    (h5 : ¬(pyIsDigit s = true ∧ s.length ≥ 8)) : normCore s = s := by
  unfold normCore
  rw [if_neg h0, if_neg h1, if_neg h2, if_neg h3, if_neg h5]

/-! Each branch output of `normCore` is a fixed point of `transformSapField`. -/

theorem normCore_dateFmt_fix (s : List Char) (h8 : s.length = 8)
    (hd : pyIsDigit s = true) :
    normCore (pyStrip (dateFmt s)) = dateFmt s := by
  have hdig := all_digit_of_pyIsDigit s hd
  have hmem : ∀ c ∈ dateFmt s, isDigitChar c = true ∨ c = '-' := by
    intro c hc
    rcases mem_dateFmt s c hc with h | h
    · exact Or.inl (hdig c h)
    · exact Or.inr h
  have hstrip : pyStrip (dateFmt s) = dateFmt s := by
    apply pyStrip_eq_self_of_all
    intro c hc
    rcases hmem c hc with h | rfl
    · exact digit_not_space c h
    · decide
  rw [hstrip]
  have hlen := length_dateFmt s h8
  have hnc : ',' ∉ dateFmt s := by
    intro hc
    rcases hmem _ hc with h | h
    · exact absurd h (by decide)
    · exact absurd h (by decide)
  have hamt : pyIsDigit (removeAmountPunct (dateFmt s)) = true := by
    rw [removeAmountPunct_dateFmt s h8 hdig]; exact hd
  unfold normCore
  rw [if_neg (not_isEmpty_of_length _ 10 hlen (by decide)),
    if_neg (fun h => absurd (hlen ▸ h.1) (by decide)),
    if_neg (fun h => absurd (hlen ▸ h.1) (by decide)),
    if_pos hamt, if_neg (fun h => hnc h.1)]

theorem normCore_timeFmt_fix (s : List Char) (h6 : s.length = 6)
    (hd : pyIsDigit s = true) :
    normCore (pyStrip (timeFmt s)) = timeFmt s := by
  have hdig := all_digit_of_pyIsDigit s hd
  have hmem : ∀ c ∈ timeFmt s, isDigitChar c = true ∨ c = ':' := by
    intro c hc
    rcases mem_timeFmt s c hc with h | h
    · exact Or.inl (hdig c h)
    · exact Or.inr h
  have hstrip : pyStrip (timeFmt s) = timeFmt s := by
    apply pyStrip_eq_self_of_all
    intro c hc
    rcases hmem c hc with h | rfl
    · exact digit_not_space c h
    · decide
  rw [hstrip]
  have hcol : ':' ∈ timeFmt s := by
    unfold timeFmt
    exact List.mem_append_right _ (List.mem_cons_self _ _)
  have hnd : pyIsDigit (timeFmt s) = false :=
    pyIsDigit_false_of_mem _ ':' hcol (by decide)
  have hlen := length_timeFmt s h6
  have hcolf : ':' ∈ removeAmountPunct (timeFmt s) := by
    unfold removeAmountPunct
    exact List.mem_filter.mpr ⟨hcol, by decide⟩
  unfold normCore
  rw [if_neg (not_isEmpty_of_length _ 8 hlen (by decide)),
    if_neg (fun h => by rw [hnd] at h; exact absurd h.2 (by decide)),
    if_neg (fun h => absurd (hlen ▸ h.1) (by decide)),
    if_neg (by
      rw [pyIsDigit_false_of_mem _ ':' hcolf (by decide)]
      decide),
    if_neg (fun h => by rw [hnd] at h; exact absurd h.1 (by decide))]

theorem removeAmountPunct_replaceComma (s : List Char) :
    removeAmountPunct (replaceCommaDot s) = removeAmountPunct s := by
  induction s with
  | nil => rfl
  | cons a t ih =>
    by_cases ha : a = ','
    · subst ha
      show removeAmountPunct ('.' :: replaceCommaDot t) = removeAmountPunct (',' :: t)
      unfold removeAmountPunct at *
      rw [List.filter_cons, List.filter_cons]
      simpa using ih
    · show removeAmountPunct ((if a = ',' then '.' else a) :: replaceCommaDot t)
          = removeAmountPunct (a :: t)
      rw [if_neg ha]
      unfold removeAmountPunct at *
      rw [List.filter_cons, List.filter_cons, ih]

theorem normCore_replaceComma_fix (s : List Char)
    (h3 : pyIsDigit (removeAmountPunct s) = true)
    (hc : ',' ∈ s) (_hnd : '.' ∉ s) :
    normCore (pyStrip (replaceCommaDot s)) = replaceCommaDot s := by
  have hchar : ∀ c ∈ s, isDigitChar c = true ∨ (c = '.' ∨ c = ',' ∨ c = '-') := by
    intro c hcs
    by_cases hp : (!(c = '.' || c = ',' || c = '-')) = true
    · left
      exact all_digit_of_pyIsDigit _ h3 c
        (List.mem_filter.mpr ⟨hcs, hp⟩)
    · right
      by_cases hd1 : c = '.'
      · exact Or.inl hd1
      by_cases hd2 : c = ','
      · exact Or.inr (Or.inl hd2)
      by_cases hd3 : c = '-'
      · exact Or.inr (Or.inr hd3)
      exact absurd (by simp [hd1, hd2, hd3]) hp
  have hychar : ∀ c ∈ replaceCommaDot s,
      isDigitChar c = true ∨ (c = '.' ∨ c = '-') := by
    intro c hcy
    obtain ⟨a, ha, rfl⟩ := List.mem_map.mp hcy
    by_cases haa : a = ','
    · subst haa; right; left; simp
    · rw [if_neg haa]
      rcases hchar a ha with h | h | h | h
      · exact Or.inl h
      · exact Or.inr (Or.inl h)
      · exact absurd h haa
      · exact Or.inr (Or.inr h)
  have hstrip : pyStrip (replaceCommaDot s) = replaceCommaDot s := by
    apply pyStrip_eq_self_of_all
    intro c hcy
    rcases hychar c hcy with h | rfl | rfl
    · exact digit_not_space c h
    · decide
    · decide
  rw [hstrip]
  have hdot : '.' ∈ replaceCommaDot s :=
    List.mem_map.mpr ⟨',', hc, by simp⟩
  have hnotdig : pyIsDigit (replaceCommaDot s) = false :=
    pyIsDigit_false_of_mem _ '.' hdot (by decide)
  have hnocomma : ',' ∉ replaceCommaDot s := by
    intro hmem
    obtain ⟨a, _, heq⟩ := List.mem_map.mp hmem
    by_cases haa : a = ','
    · subst haa; simp at heq
    · rw [if_neg haa] at heq; exact haa heq
  have hne : ¬(replaceCommaDot s).isEmpty = true := by
    intro h
    rw [List.isEmpty_iff] at h
    rw [h] at hdot
    simp at hdot
  unfold normCore
  rw [if_neg hne,
    if_neg (fun h => by rw [hnotdig] at h; exact absurd h.2 (by decide)),
    if_neg (fun h => by rw [hnotdig] at h; exact absurd h.2 (by decide)),
    if_pos (by rw [removeAmountPunct_replaceComma]; exact h3),
    if_neg (fun h => hnocomma h.1)]

/-- Second application of the stripped branch chain is the identity: the heart
of the idempotence property. -/
theorem normCore_fix (s : List Char) (hs : pyStrip s = s) :
    normCore (pyStrip (normCore s)) = normCore s := by
  by_cases h0 : s.isEmpty = true
  · rw [normCore_empty s h0]; decide
  · by_cases h1 : s.length = 8 ∧ pyIsDigit s = true
    · by_cases hz : s = "00000000".toList
      · subst hz; decide
      · rw [normCore_date s h1 hz]
        exact normCore_dateFmt_fix s h1.1 h1.2
    · by_cases h2 : s.length = 6 ∧ pyIsDigit s = true
      · rw [normCore_time s h1 h2]
        exact normCore_timeFmt_fix s h2.1 h2.2
      · by_cases h3 : pyIsDigit (removeAmountPunct s) = true
        · by_cases h4 : ',' ∈ s ∧ '.' ∉ s
          · rw [normCore_amount_replace s h0 h1 h2 h3 h4]
            exact normCore_replaceComma_fix s h3 h4.1 h4.2
          · rw [normCore_amount_id s h0 h1 h2 h3 h4, hs]
            exact normCore_amount_id s h0 h1 h2 h3 h4
        · by_cases h5 : pyIsDigit s = true ∧ s.length ≥ 8
          · exact absurd (by rw [removeAmountPunct_of_digits s
              (all_digit_of_pyIsDigit s h5.1)]; exact h5.1) h3
          · rw [normCore_default s h0 h1 h2 h3 h5, hs]
            exact normCore_default s h0 h1 h2 h3 h5

/-! ## CSV processor (`csv_processor_cy.pyx`) -/

/-- An insertion-ordered dict write, CPython semantics: overwrite in place when
the key exists, append otherwise. -/
def dictSet {α β : Type} [DecidableEq α] (d : List (α × β)) (k : α) (v : β) :
    List (α × β) :=
  if d.any (fun p => p.1 = k) then d.map (fun p => if p.1 = k then (k, v) else p)
  else d ++ [(k, v)]

/-- Dict lookup (first matching key). -/
def dictGet? {α β : Type} [DecidableEq α] (d : List (α × β)) (k : α) : Option β :=
  match d.find? (fun p => p.1 = k) with
  | some p => some p.2
  | none => none

/-- Strip one layer of quoting with quote character `q`:
`if t.startswith(q) and t.endswith(q): t = t[1:-1]`. -/
def stripOneQuote (q : Char) (t : List Char) : List Char :=
  if t.head? = some q ∧ t.getLast? = some q then (t.drop 1).dropLast else t

/-- The per-field post-processing of `_parse_csv_line_fast`: strip surrounding
whitespace, then strip one layer of literal double quotes — the source tests
`field.startswith('"') and field.endswith('"')` with a hardcoded `'"'`, not
the configured quote character. -/
def procField (f : List Char) : List Char :=
  stripOneQuote '"' (pyStrip f)

/-- The field post-processing as the specification words it: trim, then strip
one layer of the CONFIGURED quote character. (Spec-side definition, used to
compare the claimed behaviour with `procField`.) -/
def specFieldProcessing (q : Char) (f : List Char) : List Char :=
  stripOneQuote q (pyStrip f)

/-- The scanning loop of `CSVProcessorCy._parse_csv_line_fast`: a single
left-to-right pass; the quote character toggles `in_quotes` (and stays in the
accumulated field text, since the source slices `line[field_start:i]`); the
delimiter ends a field only outside quotes; when the two coincide the quote
test wins (`if c == self.quotechar ... elif c == self.delimiter`). -/
def parseGo (delim quote : Char) : List Char → Bool → List Char → List (List Char)
  | [], _, acc => [procField acc]
  | c :: rest, inq, acc =>
    if c = quote then parseGo delim quote rest (!inq) (acc ++ [c])
    else if c = delim ∧ inq = false then
      procField acc :: parseGo delim quote rest inq []
    else parseGo delim quote rest inq (acc ++ [c])

/-- `CSVProcessorCy._parse_csv_line_fast`. -/
def parseCsvLineFast (line : List Char) (delim quote : Char) : List (List Char) :=
  parseGo delim quote line false []

/-- The raw quote-aware segmentation of a line (the spec's splitting step,
before any per-field processing). -/
def rawSegGo (delim quote : Char) : List Char → Bool → List Char → List (List Char)
  | [], _, acc => [acc]
  | c :: rest, inq, acc =>
    if c = quote then rawSegGo delim quote rest (!inq) (acc ++ [c])
    else if c = delim ∧ inq = false then acc :: rawSegGo delim quote rest inq []
    else rawSegGo delim quote rest inq (acc ++ [c])

/-- The raw field segments of a line under the quote-aware scan. -/
def rawSegments (line : List Char) (delim quote : Char) : List (List Char) :=
  rawSegGo delim quote line false []

theorem parseGo_eq_map (delim quote : Char) (l : List Char) :
    ∀ inq acc, parseGo delim quote l inq acc
      = (rawSegGo delim quote l inq acc).map procField := by
  induction l with
  | nil => intro inq acc; rfl
  | cons c rest ih =>
    intro inq acc
    simp only [parseGo, rawSegGo]
    split_ifs with h1 h2
    · exact ih _ _
    · simp only [List.map_cons]; rw [ih]
    · exact ih _ _

/-- Python `str.split(sep)` for a single-character separator (returns `[""]`
on the empty string, keeps empty segments). -/
def pySplitChar : List Char → Char → List (List Char)
  | [], _ => [[]]
  | c :: rest, sep =>
    let r := pySplitChar rest sep
    if c = sep then [] :: r
    else
      match r with
      | [] => [[c]]
      | h :: t => (c :: h) :: t

/-- A CSV record: an insertion-ordered mapping from field name to value. -/
abbrev CsvRecord := List (List Char × List Char)

/-- Zip a field list against headers up to the shorter length, writing
`record[headers[j]] = fields[j]` in order. -/
def mkRecord (headers fields : List (List Char)) : CsvRecord :=
  (headers.zip fields).foldl (fun r p => dictSet r p.1 p.2) []

/-- The header-less branch: `record[f"col_{j}"] = fields[j]` (0-based). -/
def mkRecordNoHeader (fields : List (List Char)) : CsvRecord :=
  fields.enum.foldl (fun r p => dictSet r ("col_" ++ toString p.1).toList p.2) []

/-- `CSVProcessorCy.process_fast`: strip the content, split on newlines, parse
the header line when `has_header`, skip blank lines, and zip each data line
against the headers (`min` length) or synthesize `col_j` names. -/
def processFast (content : List Char) (hasHeader : Bool) (delim quote : Char) :
    List CsvRecord :=
  let lines := pySplitChar (pyStrip content) '\n'
  if lines.isEmpty then []
  else
    let p : Option (List (List Char)) × List (List Char) :=
      if hasHeader then
        match lines with
        | [] => (none, [])
        | h :: rest => (some (parseCsvLineFast h delim quote), rest)
      else (none, lines)
    p.2.foldl (fun result line =>
      if (pyStrip line).isEmpty then result
      else
        let fields := parseCsvLineFast line delim quote
        match p.1 with
        | some headers =>
          if headers.isEmpty then result ++ [mkRecordNoHeader fields]
          else result ++ [mkRecord headers fields]
        | none => result ++ [mkRecordNoHeader fields]) []

/-- The local `process_chunk` placeholder inside
`CSVProcessorCy.process_large_file_fast` — it just returns its argument and is
NOT the caller-supplied callback. -/
def processChunkPlaceholder (chunk : List CsvRecord) : List CsvRecord := chunk

/-- `CSVProcessorCy.process_large_file_fast` over the file's lines: read the
header line, then stream the remaining lines, buffering records into chunks of
`chunkSize` and handing each full chunk (and the final partial one) to the
local placeholder; returns the number of nonblank data lines. -/
def processLargeFileFast (fileLines : List (List Char)) (chunkSize : Nat)
    (delim quote : Char) : Nat :=
  match fileLines with
  | [] => 0
  | headerLine :: rest =>
    let hstr := pyStrip headerLine
    let headers : Option (List (List Char)) :=
      if hstr.isEmpty then none else some (parseCsvLineFast hstr delim quote)
    let final := rest.foldl (fun (st : List CsvRecord × Nat) line =>
      let l := pyStrip line
      if l.isEmpty then st
      else
        let fields := parseCsvLineFast l delim quote
        let chunk :=
          match headers with
          | some hs => if hs.isEmpty then st.1 else st.1 ++ [mkRecord hs fields]
          | none => st.1
        let count := st.2 + 1
        if chunkSize ≤ chunk.length then
          let _ := processChunkPlaceholder chunk
          ([], count)
        else (chunk, count)) ([], 0)
    let _ := if final.1.isEmpty then [] else processChunkPlaceholder final.1
    final.2

/-- `CSVProcessorCy.stream_process(file_path, chunk_size, callback)`: the
source's `_stream()` closure calls `process_large_file_fast(file_path,
chunk_size)` and never touches `callback`. -/
def streamProcess (fileLines : List (List Char)) (chunkSize : Nat)
    (_callback : List CsvRecord → Except String Unit) (delim quote : Char) :
    Except String Nat :=
  Except.ok (processLargeFileFast fileLines chunkSize delim quote)

/-! ## Grouped numeric aggregation (`math_utils_cy.pyx`).
Doubles are modelled as rationals; the inputs are the zipped
`(group_ids[i], values[i])` pairs (the source walks two equal-length parallel
arrays by index). -/

/-- `fast_mean`: 0 on an empty array, else the accumulated sum divided by the
element count. -/
def fastMean (l : List ℚ) : ℚ :=
  if l.length = 0 then 0 else l.sum / l.length

/-- One step of the grouping loop of `erp_group_aggregation`:
`if group_id not in groups: groups[group_id] = []` followed by
`groups[group_id].append(value)` — append to the (unique) entry of that key,
or create the key at the end, CPython dict insertion order. -/
def groupInsert : List (Int × List ℚ) → Int → ℚ → List (Int × List ℚ)
  | [], g, v => [(g, [v])]
  | p :: rest, g, v =>
    if p.1 = g then (p.1, p.2 ++ [v]) :: rest else p :: groupInsert rest g v

/-- The grouping pass of `erp_group_aggregation`. -/
def buildGroups (pairs : List (Int × ℚ)) : List (Int × List ℚ) :=
  pairs.foldl (fun gs p => groupInsert gs p.1 p.2) []

/-- `erp_group_aggregation(group_ids, values, 'mean')`: group the values by
group id, then apply `fast_mean` to each group (the `agg_func == 'mean'` arm
of the per-group dispatch). -/
def erpGroupAggregationMean (pairs : List (Int × ℚ)) : List (Int × ℚ) :=
  (buildGroups pairs).map (fun p => (p.1, fastMean p.2))

/-- The multiset of values assigned to group `g`, in input order (the
specification-level description of a group's contents). -/
def groupVals (pairs : List (Int × ℚ)) (g : Int) : List ℚ :=
  (pairs.filter (fun p => p.1 = g)).map Prod.snd

theorem dictGet?_cons {α β : Type} [DecidableEq α] (p : α × β)
    (rest : List (α × β)) (g : α) :
    dictGet? (p :: rest) g = if p.1 = g then some p.2 else dictGet? rest g := by
  by_cases h : p.1 = g
  · simp [dictGet?, List.find?_cons_of_pos, h]
  · simp only [dictGet?, if_neg h]
    rw [List.find?_cons_of_neg]
    simp [h]

theorem dictGet?_groupInsert (gs : List (Int × List ℚ)) (h : Int) (v : ℚ)
    (g : Int) :
    dictGet? (groupInsert gs h v) g
      = if g = h then some (((dictGet? gs h).getD []) ++ [v])
        else dictGet? gs g := by
  induction gs with
  | nil =>
    by_cases hg : g = h
    · subst hg; simp [groupInsert, dictGet?_cons, dictGet?]
    · have hh : ¬h = g := fun e => hg e.symm
      simp [groupInsert, dictGet?_cons, dictGet?, hg, hh]
  | cons p rest ih =>
    by_cases hp : p.1 = h
    · by_cases hg : g = h
      · subst hg
        simp [groupInsert, hp, dictGet?_cons]
      · have hhg : ¬h = g := fun e => hg e.symm
        have hpg : ¬p.1 = g := by rw [hp]; exact hhg
        simp [groupInsert, hp, dictGet?_cons, hg, hhg, hpg]
    · simp only [groupInsert, if_neg hp]
      by_cases hpg : p.1 = g
      · have hgh : ¬g = h := by rw [← hpg]; exact fun e => hp e
        simp [dictGet?_cons, hpg, hgh]
      · simp [dictGet?_cons, hpg, hp, ih]

theorem dictGet?_buildGroups_aux (pairs : List (Int × ℚ)) :
    ∀ (gs : List (Int × List ℚ)) (g : Int),
      dictGet? (pairs.foldl (fun a p => groupInsert a p.1 p.2) gs) g
        = if g ∈ pairs.map Prod.fst ∨ (dictGet? gs g).isSome = true
          then some ((dictGet? gs g).getD [] ++ groupVals pairs g)
          else none := by
  induction pairs with
  | nil =>
    intro gs g
    simp only [List.foldl_nil, groupVals, List.filter_nil, List.map_nil,
      List.mem_nil_iff, false_or, List.append_nil]
    cases hd : dictGet? gs g <;> simp [hd]
  | cons hv rest ih =>
    intro gs g
    rw [List.foldl_cons, ih, dictGet?_groupInsert]
    by_cases hg : g = hv.1
    · rw [if_pos hg, hg]
      have hfil : groupVals (hv :: rest) hv.1 = hv.2 :: groupVals rest hv.1 := by
        unfold groupVals
        rw [List.filter_cons, if_pos (by simp)]
        simp
      have hmem : hv.1 ∈ (hv :: rest).map Prod.fst :=
        List.mem_map.mpr ⟨hv, List.mem_cons_self _ _, rfl⟩
      cases hd : dictGet? gs hv.1 with
      | some vs => simp [hd, hfil, hmem, List.append_assoc]
      | none => simp [hd, hfil, hmem]
    · have hne : ¬hv.1 = g := fun e => hg e.symm
      have hfil : groupVals (hv :: rest) g = groupVals rest g := by
        unfold groupVals
        rw [List.filter_cons, if_neg (by simp [hne])]
      rw [if_neg hg, hfil]
      by_cases hmem2 : g ∈ rest.map Prod.fst
      · have hm : g ∈ (hv :: rest).map Prod.fst := by
          rw [List.map_cons]; exact List.mem_cons_of_mem _ hmem2
        simp [hmem2, hm]
      · cases hd : dictGet? gs g with
        | some vs => simp [hd, hmem2, hg]
        | none => simp [hd, hmem2, hg]

theorem dictGet?_buildGroups (pairs : List (Int × ℚ)) (g : Int) :
    dictGet? (buildGroups pairs) g
      = if g ∈ pairs.map Prod.fst then some (groupVals pairs g) else none := by
  rw [buildGroups, dictGet?_buildGroups_aux pairs [] g]
  by_cases hmem : g ∈ pairs.map Prod.fst
  · simp [hmem, dictGet?, List.find?_nil]
  · simp [hmem, dictGet?, List.find?_nil]

theorem dictGet?_map_fastMean (gs : List (Int × List ℚ)) (g : Int) :
    dictGet? (gs.map (fun p => (p.1, fastMean p.2))) g
      = (dictGet? gs g).map fastMean := by
  induction gs with
  | nil => rfl
  | cons p rest ih =>
    rw [List.map_cons, dictGet?_cons, dictGet?_cons]
    by_cases h : p.1 = g
    · simp [h]
    · simp [h, ih]

/-! ## Record validator (`erp_data_validator` in `csv_processor_cy.pyx`).
Record values are strings (the source does `field_value = str(record[...])`;
the validated CSV records carry strings already). -/

/-- Python `int(s)` success (optional surrounding whitespace, optional sign,
one or more ASCII digits; underscores/locale digits not modelled — the
validated ERP fields do not contain them). -/
def dropSign : List Char → List Char
  | '+' :: r => r
  | '-' :: r => r
  | r => r

def pyIntParses (s : List Char) : Bool :=
  pyIsDigit (dropSign (pyStrip s))

/-- Python `float(s)` success: optional sign, a mantissa `d+`, `d+.`, `.d+` or
`d+.d+`, optionally `e`/`E` with signed digits (`inf`/`nan` not modelled). -/
def mantissaOk (m : List Char) : Bool :=
  match m.splitOn '.' with
  | [a] => pyIsDigit a
  | [a, b] =>
    (pyIsDigit a && b.isEmpty) || (pyIsDigit b && a.isEmpty)
      || (pyIsDigit a && pyIsDigit b)
  | _ => false

def pyFloatParses (s : List Char) : Bool :=
  match (dropSign ((pyStrip s).map Char.toLower)).splitOn 'e' with
  | [m] => mantissaOk m
  | [m, e] => mantissaOk m && pyIsDigit (dropSign e)
  | _ => false

/-- A schema rule object: the keys the source reads (`required`, `type`,
`max_length`) plus the keys the spec's rule object carries that the
record-level validator never reads (`min_length`, `pattern`). -/
structure FieldRules where
  required : Bool := false
  type : String := "string"
  min_length : Option Nat := none
  max_length : Option Nat := none
  pattern : Option String := none
deriving DecidableEq

/-- A validation error `{'record': idx, 'field': name, 'error': msg}`. -/
structure ValidationErr where
  record : Nat
  field : String
  error : String
deriving DecidableEq

/-- The errors one `(field_name, field_rules)` schema entry contributes for
one record in `erp_data_validator`: required-missing when absent; else the
integer/float parse check followed by the `max_length` check.  `min_length`
and `pattern` are never consulted. -/
def fieldChecks (idx : Nat) (record : List (String × String))
    (fieldName : String) (rules : FieldRules) : List ValidationErr :=
  match dictGet? record fieldName with
  | none =>
    if rules.required then [⟨idx, fieldName, "Required field missing"⟩] else []
  | some v =>
    (if rules.type = "integer" then
      (if pyIntParses v.toList then []
       else [⟨idx, fieldName, "Invalid integer: " ++ v⟩])
     else if rules.type = "float" then
      (if pyFloatParses v.toList then []
       else [⟨idx, fieldName, "Invalid float: " ++ v⟩])
     else []) ++
    (match rules.max_length with
     | some m =>
       if m < v.length then
         [⟨idx, fieldName,
           "Value too long: " ++ toString v.length ++ " > " ++ toString m⟩]
       else []
     | none => [])

/-- `erp_data_validator(data, schema)`: for each record index and each schema
entry in order, append that entry's errors. -/
def erpDataValidator (data : List (List (String × String)))
    (schema : List (String × FieldRules)) : List ValidationErr :=
  data.enum.foldl (fun errs iv =>
    schema.foldl (fun es fr => es ++ fieldChecks iv.1 iv.2 fr.1 fr.2) errs) []

theorem foldl_mem_mono {α β : Type} (f : List α → β → List α)
    (hmono : ∀ acc b x, x ∈ acc → x ∈ f acc b) :
    ∀ (l : List β) (init : List α) (x : α), x ∈ init → x ∈ l.foldl f init := by
  intro l
  induction l with
  | nil => intro init x hx; simpa using hx
  | cons a t ih =>
    intro init x hx
    rw [List.foldl_cons]
    exact ih _ _ (hmono init a x hx)

theorem foldl_mem_of_elem {α β : Type} (f : List α → β → List α)
    (hmono : ∀ acc b x, x ∈ acc → x ∈ f acc b)
    (l : List β) (b : β) (hb : b ∈ l) (x : α)
    (hx : ∀ acc, x ∈ f acc b) :
    ∀ init, x ∈ l.foldl f init := by
  induction l with
  | nil => simp at hb
  | cons a t ih =>
    intro init
    rw [List.foldl_cons]
    rcases List.mem_cons.mp hb with rfl | hb2
    · exact foldl_mem_mono f hmono t _ x (hx init)
    · exact ih hb2 _

theorem mem_enumFrom_of_get? {α : Type} (l : List α) :
    ∀ (n i : Nat) (x : α), l.get? i = some x → (n + i, x) ∈ l.enumFrom n := by
  induction l with
  | nil => intro n i x h; simp at h
  | cons a t ih =>
    intro n i x h
    cases i with
    | zero =>
      have hx : a = x := by simpa using h
      subst hx
      exact List.mem_cons_self _ _
    | succ j =>
      have hj : t.get? j = some x := by simpa using h
      have := ih (n + 1) j x hj
      have harith : n + 1 + j = n + (j + 1) := by omega
      rw [harith] at this
      exact List.mem_cons_of_mem _ this

theorem mem_enum_of_get? {α : Type} (l : List α) (i : Nat) (x : α)
    (h : l.get? i = some x) : (i, x) ∈ l.enum := by
  have := mem_enumFrom_of_get? l 0 i x h
  simpa [List.enum] using this

/-! ## SAP BAPI response transformer (`SAPTransformerCy._transform_bapi_result`,
`_transform_sap_table`, `_get_message_severity`).
A deserialized response value: strings, numeric scalars (modelled by `Int`;
their exact arithmetic is irrelevant here), lists and insertion-ordered dicts
with string keys.  A `cdef dict` / `cdef str` coercion that would raise
`TypeError` is modelled by `none`. -/

inductive PyVal : Type where
  | str : List Char → PyVal
  | int : Int → PyVal
  | list : List PyVal → PyVal
  | dict : List (String × PyVal) → PyVal

/-- `{'headers': ..., 'rows': ..., 'row_count': ...}`. -/
structure SapParsedTable where
  headers : List String
  rows : List (List PyVal)
  row_count : Nat

/-- One entry of `result['messages']`; only `TYPE` passes through a `cdef str`
coercion, the other message fields are stored as retrieved. -/
structure BapiMessage where
  type : List Char
  message : PyVal
  field : PyVal
  number : PyVal
  severity : List Char

structure BapiMetadata where
  record_count : Nat
  table_count : Nat
  has_errors : Bool
  message_count : Nat

structure BAPIResult where
  success : Bool
  messages : List BapiMessage
  data : List (String × PyVal)
  tables : List (String × SapParsedTable)
  metadata : BapiMetadata

/-- `SAPTransformerCy._get_message_severity`. -/
def getMessageSeverity (t : List Char) : List Char :=
  if t = "S".toList then "success".toList
  else if t = "I".toList then "info".toList
  else if t = "W".toList then "warning".toList
  else if t = "E".toList then "error".toList
  else if t = "A".toList then "abort".toList
  else "unknown".toList

/-- `_transform_sap_field` on an arbitrary value: non-strings pass through
unchanged (`if not isinstance(value, str): return value`). -/
def transformSapFieldVal : PyVal → PyVal
  | .str s => .str (transformSapField s)
  | v => v

/-- Map a fallible function over a list, failing as soon as one element fails
(the iteration raises and the whole call aborts). -/
def optMap {α β : Type} (f : α → Option β) : List α → Option (List β)
  | [] => some []
  | a :: rest =>
    match f a, optMap f rest with
    | some b, some bs => some (b :: bs)
    | _, _ => none

/-- The `cdef dict` coercion of a row / message. -/
def pyAsDict : PyVal → Option (List (String × PyVal))
  | .dict d => some d
  | _ => none

/-- `row.get(header, '')` (and the other `.get(key, '')` accesses). -/
def dGetD (d : List (String × PyVal)) (k : String) (dflt : PyVal) : PyVal :=
  (dictGet? d k).getD dflt

theorem optMap_length {α β : Type} (f : α → Option β) :
    ∀ (l : List α) (ys : List β), optMap f l = some ys → ys.length = l.length := by
  intro l
  induction l with
  | nil =>
    intro ys h
    simp only [optMap, Option.some.injEq] at h
    rw [← h]
    rfl
  | cons a rest ih =>
    intro ys h
    simp only [optMap] at h
    cases hb : f a with
    | none => rw [hb] at h; simp at h
    | some b =>
      cases hr : optMap f rest with
      | none => rw [hb, hr] at h; simp at h
      | some bs =>
        rw [hb, hr] at h
        simp only [Option.some.injEq] at h
        rw [← h]
        simp [ih bs hr]

/-- `SAPTransformerCy._transform_sap_table`: headers from the first row's
keys, each row projected through the headers in order with default `''` and
the field normalizer. -/
def transformSapTable (tableData : List PyVal) : Option SapParsedTable :=
  match tableData with
  | [] => some ⟨[], [], 0⟩
  | _ :: _ =>
    match optMap pyAsDict tableData with
    | none => none
    | some [] => none
    | some (d0 :: ds') =>
      let headers := d0.map Prod.fst
      let rows := (d0 :: ds').map (fun d =>
        headers.map (fun h => transformSapFieldVal (dGetD d h (.str []))))
      some ⟨headers, rows, rows.length⟩

/-- One message dict turned into a `result['messages']` entry; a non-string
`TYPE` fails the `cdef str msg_type` coercion. -/
def buildMsg (d : List (String × PyVal)) : Option BapiMessage :=
  match dGetD d "TYPE" (.str []) with
  | .str t => some ⟨t, dGetD d "MESSAGE" (.str []), dGetD d "FIELD" (.str []),
      dGetD d "NUMBER" (.str []), getMessageSeverity t⟩
  | _ => none

/-- Promote `RETURN` to a list of message dicts: a dict becomes a one-element
list; a list's elements must each be dicts; iterating an empty string yields
no messages; any other value fails the iteration / `cdef dict` coercion. -/
def pyAsMsgDicts : PyVal → Option (List (List (String × PyVal)))
  | .dict d => some [d]
  | .list l => optMap pyAsDict l
  | .str s => if s.isEmpty then some [] else none
  | _ => none

/-- The `RETURN` pass of `_transform_bapi_result`. -/
def bapiMessages (resp : List (String × PyVal)) : Option (List BapiMessage) :=
  match dictGet? resp "RETURN" with
  | none => some []
  | some v =>
    match pyAsMsgDicts v with
    | none => none
    | some ds => optMap buildMsg ds

/-- The second pass of `_transform_bapi_result` over the non-`RETURN` keys:
a non-empty list value is a table parameter, anything else a scalar export
parameter run through the field normalizer. -/
def buildTablesData : List (String × PyVal) →
    Option (List (String × SapParsedTable) × List (String × PyVal))
  | [] => some ([], [])
  | (k, v) :: rest =>
    if k = "RETURN" then buildTablesData rest
    else
      match v with
      | .list l =>
        if 0 < l.length then
          match transformSapTable l, buildTablesData rest with
          | some t, some (ts, ds) => some ((k, t) :: ts, ds)
          | _, _ => none
        else
          match buildTablesData rest with
          | some (ts, ds) => some (ts, (k, transformSapFieldVal v) :: ds)
          | none => none
      | _ =>
        match buildTablesData rest with
        | some (ts, ds) => some (ts, (k, transformSapFieldVal v) :: ds)
        | none => none

/-- `SAPTransformerCy._transform_bapi_result`. -/
def transformBapiResult (resp : List (String × PyVal)) : Option BAPIResult :=
  match bapiMessages resp, buildTablesData resp with
  | some msgs, some (tables, data) =>
    let success := !(msgs.any fun m => m.type = "E".toList || m.type = "A".toList)
    some ⟨success, msgs, data, tables,
      ⟨(tables.map (fun p => p.2.rows.length)).sum, tables.length,
        !success, msgs.length⟩⟩
  | _, _ => none

theorem optMap_buildMsg_severity :
    ∀ (ds : List (List (String × PyVal))) (msgs : List BapiMessage),
      optMap buildMsg ds = some msgs →
      ∀ m ∈ msgs, m.severity = getMessageSeverity m.type := by
  intro ds
  induction ds with
  | nil =>
    intro msgs h m hm
    simp only [optMap, Option.some.injEq] at h
    rw [← h] at hm
    simp at hm
  | cons d rest ih =>
    intro msgs h m hm
    simp only [optMap] at h
    cases hb : buildMsg d with
    | none => rw [hb] at h; simp at h
    | some b =>
      cases hr : optMap buildMsg rest with
      | none => rw [hb, hr] at h; simp at h
      | some bs =>
        rw [hb, hr] at h
        simp only [Option.some.injEq] at h
        rw [← h] at hm
        rcases List.mem_cons.mp hm with rfl | hm2
        · unfold buildMsg at hb
          cases ht : dGetD d "TYPE" (.str []) with
          | str t =>
            rw [ht] at hb
            simp only [Option.some.injEq] at hb
            rw [← hb]
          | int n => rw [ht] at hb; simp at hb
          | list l => rw [ht] at hb; simp at hb
          | dict d2 => rw [ht] at hb; simp at hb
        · exact ih bs hr m hm2

theorem bapiMessages_severity (resp : List (String × PyVal))
    (msgs : List BapiMessage) (h : bapiMessages resp = some msgs) :
    ∀ m ∈ msgs, m.severity = getMessageSeverity m.type := by
  unfold bapiMessages at h
  split at h
  · simp only [Option.some.injEq] at h
    intro m hm
    rw [← h] at hm
    simp at hm
  · split at h
    · exact absurd h (by simp)
    · exact optMap_buildMsg_severity _ msgs h

theorem bool_not_eq_false (b : Bool) : ((!b) = false) ↔ b = true := by
  cases b <;> simp

/-! ## JSON flattener (`JSONProcessorCy._flatten_dict_fast` / `flatten`).
JSON values as a mutual inductive (objects and arrays carry their own spine)
so the source's nested recursion is structural. -/

mutual
inductive JVal : Type where
  | str : String → JVal
  | int : Int → JVal
  | bool : Bool → JVal
  | null : JVal
  | dict : JObj → JVal
  | list : JArr → JVal
inductive JObj : Type where
  | nil : JObj
  | cons : String → JVal → JObj → JObj
inductive JArr : Type where
  | nil : JArr
  | cons : JVal → JArr → JArr
end

/-- `items.update(flattened)`: write each entry of the second dict into the
first, in order. -/
def dictUpdate (d entries : List (String × JVal)) : List (String × JVal) :=
  entries.foldl (fun acc kv => dictSet acc kv.1 kv.2) d

mutual
/-- The entry loop of `_flatten_dict_fast`: for each `(k, v)` the new key is
`parent_key + sep + k` (just `k` when the parent key is empty/falsy); a dict
value recurses into a fresh dict that is `update`d into `items`; a list value
runs the index loop; any other value is stored under the new key. -/
def flattenObj (items : List (String × JVal)) (o : JObj) (parentKey sep : String) :
    List (String × JVal) :=
  match o with
  | .nil => items
  | .cons k v rest =>
    let newKey := if parentKey = "" then k else parentKey ++ sep ++ k
    let items2 :=
      match v with
      | .dict d => dictUpdate items (flattenObj [] d newKey sep)
      | .list a => flattenArr items a newKey sep 0
      | s => dictSet items newKey s
    flattenObj items2 rest parentKey sep

/-- The list loop: a dict element recurses with key `new_key + sep + i`; every
other element — scalars AND nested lists — is stored as-is under
`new_key + sep + i`. -/
def flattenArr (items : List (String × JVal)) (a : JArr) (newKey sep : String)
    (i : Nat) : List (String × JVal) :=
  match a with
  | .nil => items
  | .cons e rest =>
    let items2 :=
      match e with
      | .dict d => dictUpdate items (flattenObj [] d (newKey ++ sep ++ toString i) sep)
      | _ => dictSet items (newKey ++ sep ++ toString i) e
    flattenArr items2 rest newKey sep (i + 1)
end

/-- `JSONProcessorCy.flatten(data, sep)` = `_flatten_dict_fast(data, '', sep)`. -/
def flattenTop (o : JObj) (sep : String) : List (String × JVal) :=
  flattenObj [] o "" sep

mutual
/-- Specification-side: the scalar leaves of a value with their
separator-joined paths, as §4.3 words them (object keys joined with the
separator, empty parent key giving unqualified keys; a list element's path
component is `parent_key + sep + index`). -/
def leavesVal : JVal → String → String → List (String × JVal)
  | .dict o, pk, sep => leavesObj o pk sep
  | .list a, pk, sep => leavesArr a pk sep 0
  | v, pk, _ => [(pk, v)]
def leavesObj : JObj → String → String → List (String × JVal)
  | .nil, _, _ => []
  | .cons k v rest, pk, sep =>
    leavesVal v (if pk = "" then k else pk ++ sep ++ k) sep ++ leavesObj rest pk sep
def leavesArr : JArr → String → String → Nat → List (String × JVal)
  | .nil, _, _, _ => []
  | .cons e rest, pk, sep, i =>
    leavesVal e (pk ++ sep ++ toString i) sep ++ leavesArr rest pk sep (i + 1)
end

mutual
/-- Values whose lists contain only dicts and scalars (no list directly
inside a list) — the shape on which the flattener reaches every scalar leaf. -/
def goodVal : JVal → Bool
  | .dict o => goodObj o
  | .list a => goodArr a
  | _ => true
def goodObj : JObj → Bool
  | .nil => true
  | .cons _ v rest => goodVal v && goodObj rest
def goodArr : JArr → Bool
  | .nil => true
  | .cons e rest =>
    (match e with
     | .dict o => goodObj o
     | .list _ => false
     | _ => true) && goodArr rest
end

theorem dictSet_of_not_mem (d : List (String × JVal)) (k : String) (v : JVal)
    (h : k ∉ d.map Prod.fst) : dictSet d k v = d ++ [(k, v)] := by
  unfold dictSet
  rw [if_neg]
  intro hany
  obtain ⟨p, hp, hpk⟩ := List.any_eq_true.mp hany
  exact h (List.mem_map.mpr ⟨p, hp, of_decide_eq_true hpk⟩)

theorem dictUpdate_of_disjoint (L : List (String × JVal)) :
    ∀ d : List (String × JVal), (L.map Prod.fst).Nodup →
      (∀ k ∈ L.map Prod.fst, k ∉ d.map Prod.fst) →
      dictUpdate d L = d ++ L := by
  induction L with
  | nil => intro d _ _; simp [dictUpdate]
  | cons kv rest ih =>
    intro d hnd hdisj
    have hstep : dictUpdate d (kv :: rest)
        = dictUpdate (dictSet d kv.1 kv.2) rest := by
      rw [dictUpdate, List.foldl_cons]; rfl
    rw [hstep, dictSet_of_not_mem d kv.1 kv.2 (hdisj kv.1 (by simp))]
    have hnd2 : (rest.map Prod.fst).Nodup := by
      rw [List.map_cons, List.nodup_cons] at hnd
      exact hnd.2
    have hne : kv.1 ∉ rest.map Prod.fst := by
      rw [List.map_cons, List.nodup_cons] at hnd
      exact hnd.1
    rw [ih (d ++ [(kv.1, kv.2)]) hnd2 ?_]
    · simp
    · intro k hk
      rw [List.map_append, List.mem_append]
      rintro (hkd | hk1)
      · exact hdisj k (List.mem_cons_of_mem _ hk) hkd
      · have : k = kv.1 := by simpa using hk1
        subst this
        exact hne hk
theorem dictUpdate_nil_of_nodup (L : List (String × JVal))
    (h : (L.map Prod.fst).Nodup) : dictUpdate [] L = L := by
  have := dictUpdate_of_disjoint L [] h (by simp)
  simpa using this

theorem dictUpdate_append (d : List (String × JVal)) (A B : List (String × JVal)) :
    dictUpdate d (A ++ B) = dictUpdate (dictUpdate d A) B := by
  simp [dictUpdate, List.foldl_append]

theorem dictUpdate_singleton (d : List (String × JVal)) (k : String) (v : JVal) :
    dictUpdate d [(k, v)] = dictSet d k v := rfl

theorem dictGet?_of_mem_nodup (L : List (String × JVal))
    (h : (L.map Prod.fst).Nodup) (p : String) (v : JVal)
    (hm : (p, v) ∈ L) : dictGet? L p = some v := by
  induction L with
  | nil => simp at hm
  | cons kv rest ih =>
    rw [List.map_cons, List.nodup_cons] at h
    rcases List.mem_cons.mp hm with rfl | hm2
    · rw [dictGet?_cons, if_pos rfl]
    · have hne : ¬kv.1 = p := by
        intro he
        exact h.1 (he ▸ List.mem_map.mpr ⟨(p, v), hm2, rfl⟩)
      rw [dictGet?_cons, if_neg hne]
      exact ih h.2 hm2

mutual
theorem flattenObj_eq : ∀ (o : JObj) (items : List (String × JVal))
    (pk sep : String), goodObj o = true →
    ((leavesObj o pk sep).map Prod.fst).Nodup →
    flattenObj items o pk sep = dictUpdate items (leavesObj o pk sep)
  | .nil, items, pk, sep, _, _ => by
    simp [flattenObj, leavesObj, dictUpdate]
  | .cons k v rest, items, pk, sep, hg, hnd => by
    have hkv : goodVal v = true ∧ goodObj rest = true :=
      (Bool.and_eq_true _ _).mp hg
    have hnd' := hnd
    rw [show leavesObj (.cons k v rest) pk sep
        = leavesVal v (if pk = "" then k else pk ++ sep ++ k) sep
          ++ leavesObj rest pk sep from rfl,
      List.map_append, List.nodup_append] at hnd'
    obtain ⟨hndA, hndB, _⟩ := hnd'
    cases v with
    | dict d =>
      have hndA' : ((leavesObj d (if pk = "" then k else pk ++ sep ++ k) sep).map
          Prod.fst).Nodup := hndA
      simp only [flattenObj]
      rw [flattenObj_eq d [] _ sep hkv.1 hndA',
        dictUpdate_nil_of_nodup _ hndA',
        flattenObj_eq rest _ pk sep hkv.2 hndB,
        ← dictUpdate_append]
      rfl
    | list a =>
      simp only [flattenObj]
      rw [flattenArr_eq a items _ sep 0 hkv.1 hndA,
        flattenObj_eq rest _ pk sep hkv.2 hndB,
        ← dictUpdate_append]
      rfl
    | str s =>
      simp only [flattenObj]
      rw [flattenObj_eq rest _ pk sep hkv.2 hndB,
        ← dictUpdate_singleton, ← dictUpdate_append]
      rfl
    | int n =>
      simp only [flattenObj]
      rw [flattenObj_eq rest _ pk sep hkv.2 hndB,
        ← dictUpdate_singleton, ← dictUpdate_append]
      rfl
    | bool b =>
      simp only [flattenObj]
      rw [flattenObj_eq rest _ pk sep hkv.2 hndB,
        ← dictUpdate_singleton, ← dictUpdate_append]
      rfl
    | null =>
      simp only [flattenObj]
      rw [flattenObj_eq rest _ pk sep hkv.2 hndB,
        ← dictUpdate_singleton, ← dictUpdate_append]
      rfl

theorem flattenArr_eq : ∀ (a : JArr) (items : List (String × JVal))
    (nk sep : String) (i : Nat), goodArr a = true →
    ((leavesArr a nk sep i).map Prod.fst).Nodup →
    flattenArr items a nk sep i = dictUpdate items (leavesArr a nk sep i)
  | .nil, items, nk, sep, i, _, _ => by
    simp [flattenArr, leavesArr, dictUpdate]
  | .cons e rest, items, nk, sep, i, hg, hnd => by
    have hnd' := hnd
    rw [show leavesArr (.cons e rest) nk sep i
        = leavesVal e (nk ++ sep ++ toString i) sep
          ++ leavesArr rest nk sep (i + 1) from rfl,
      List.map_append, List.nodup_append] at hnd'
    obtain ⟨hndA, hndB, _⟩ := hnd'
    cases e with
    | dict d =>
      have hkv : goodObj d = true ∧ goodArr rest = true :=
        (Bool.and_eq_true _ _).mp hg
      have hndA' : ((leavesObj d (nk ++ sep ++ toString i) sep).map
          Prod.fst).Nodup := hndA
      simp only [flattenArr]
      rw [flattenObj_eq d [] _ sep hkv.1 hndA',
        dictUpdate_nil_of_nodup _ hndA',
        flattenArr_eq rest _ nk sep (i + 1) hkv.2 hndB,
        ← dictUpdate_append]
      rfl
    | list a2 => simp [goodArr] at hg
    | str s =>
      have hkv : goodArr rest = true := ((Bool.and_eq_true _ _).mp hg).2
      simp only [flattenArr]
      rw [flattenArr_eq rest _ nk sep (i + 1) hkv hndB,
        ← dictUpdate_singleton, ← dictUpdate_append]
      rfl
    | int n =>
      have hkv : goodArr rest = true := ((Bool.and_eq_true _ _).mp hg).2
      simp only [flattenArr]
      rw [flattenArr_eq rest _ nk sep (i + 1) hkv hndB,
        ← dictUpdate_singleton, ← dictUpdate_append]
      rfl
    | bool b =>
      have hkv : goodArr rest = true := ((Bool.and_eq_true _ _).mp hg).2
      simp only [flattenArr]
      rw [flattenArr_eq rest _ nk sep (i + 1) hkv hndB,
        ← dictUpdate_singleton, ← dictUpdate_append]
      rfl
    | null =>
      have hkv : goodArr rest = true := ((Bool.and_eq_true _ _).mp hg).2
      simp only [flattenArr]
      rw [flattenArr_eq rest _ nk sep (i + 1) hkv hndB,
        ← dictUpdate_singleton, ← dictUpdate_append]
      rfl
end

/-- Severity `error`/`abort` characterizes exactly the type codes `E`/`A`. -/
theorem sev_error_abort_iff (t : List Char) :
    (getMessageSeverity t = "error".toList ∨ getMessageSeverity t = "abort".toList)
      ↔ (t = "E".toList ∨ t = "A".toList) := by
  unfold getMessageSeverity
  split_ifs with h1 h2 h3 h4 h5
  · subst h1; decide
  · subst h2; decide
  · subst h3; decide
  · subst h4; decide
  · subst h5; decide
  · exact iff_of_false (by decide)
      (fun h => h.elim (fun he => h4 he) (fun ha => h5 ha))

end ERP

/-- C1 counterexample: on `"00012345"` the generic SAP field normalizer does
not return `"12345"`; the 8-digit all-digit branch (the date branch) fires
first and produces `"0001-23-45"`. -/
theorem C1_counterexample :
    ERP.transformSapField "00012345".toList ≠ "12345".toList := by decide

/-- C1 amended: `normalize("00012345")` takes the date path (exactly 8
characters, all digits, not `"00000000"`) and returns `"0001-23-45"`; the
material-number path is not taken. -/
theorem C1_amended :
    ERP.transformSapField "00012345".toList = "0001-23-45".toList := by decide

/-- C7: the generic SAP field normalizer is idempotent: for every string `x`,
`normalize(normalize(x)) = normalize(x)`. -/
theorem C7_normalize_idempotent (x : List Char) :
    ERP.transformSapField (ERP.transformSapField x) = ERP.transformSapField x := by
  show ERP.normCore (ERP.pyStrip (ERP.normCore (ERP.pyStrip x)))
      = ERP.normCore (ERP.pyStrip x)
  exact ERP.normCore_fix (ERP.pyStrip x) (ERP.pyStrip_idem x)

/-- C3: processing the three-line CSV text with delimiter `,`, quote `"` and
`has_header = true` produces exactly the two expected records, in order, with
the quoted comma kept inside the `name` field. -/
theorem C3_csv_example :
    ERP.processFast "id,name,amount\n1,\"Acme, Inc.\",100.50\n2,Beta Corp,200.00".toList
        true ',' '"'
      = [[("id".toList, "1".toList), ("name".toList, "Acme, Inc.".toList),
          ("amount".toList, "100.50".toList)],
         [("id".toList, "2".toList), ("name".toList, "Beta Corp".toList),
          ("amount".toList, "200.00".toList)]] := by decide

/-- C4 counterexample: with configured quote character `#`, the field `#a#`
keeps its quotes — the tokenizer strips a hardcoded `"` rather than the
configured quote character, so the claimed processing (strip one layer of the
CONFIGURED quote) disagrees with the code. -/
theorem C4_counterexample :
    ERP.parseCsvLineFast "#a#".toList ',' '#'
      ≠ (ERP.rawSegments "#a#".toList ',' '#').map (ERP.specFieldProcessing '#') := by
  decide

/-- C4 amended: for every line, delimiter and configured quote character, each
field the tokenizer produces is the corresponding raw quote-aware segment
trimmed of surrounding whitespace and then, if the trimmed field still begins
and ends with the LITERAL double-quote character `"` (regardless of the
configured quote character), stripped of exactly one layer of double quotes. -/
theorem C4_amended_fields_trimmed_dquote_stripped
    (line : List Char) (delim quote : Char) :
    ERP.parseCsvLineFast line delim quote
      = (ERP.rawSegments line delim quote).map ERP.procField :=
  ERP.parseGo_eq_map delim quote line false []

/-- `{"a": [[1]]}`: a list nested directly inside a list. -/
def c8Obj : ERP.JObj :=
  ERP.JObj.cons "a"
    (ERP.JVal.list (ERP.JArr.cons
      (ERP.JVal.list (ERP.JArr.cons (ERP.JVal.int 1) ERP.JArr.nil))
      ERP.JArr.nil))
    ERP.JObj.nil

/-- C8 counterexample: for `{"a": [[1]]}` with separator `_`, the scalar leaf
`1` has joined path `a_0_0`, but `flatten` stores the whole inner list `[1]`
under `a_0` and nothing under `a_0_0` — a non-dict list element (including a
nested list) is stored as-is, so the claim fails as stated over all values
built from dicts, lists and scalars. -/
theorem C8_counterexample :
    ERP.leavesObj c8Obj "" "_" = [("a_0_0", ERP.JVal.int 1)] ∧
    ERP.flattenTop c8Obj "_"
      = [("a_0", ERP.JVal.list (ERP.JArr.cons (ERP.JVal.int 1) ERP.JArr.nil))] ∧
    ERP.dictGet? (ERP.flattenTop c8Obj "_") "a_0_0" = none :=
  ⟨rfl, rfl, rfl⟩

/-- C8 amended: for every nested value whose lists contain only dicts and
scalars (a list element that is itself a list is stored as-is under
`parent_key + sep + index` without further flattening), and whose scalar
leaves have pairwise-distinct joined paths, `flatten` stores each scalar leaf
under the separator-joined path of dict keys and list indices from the root
(a list element's key is `parent_key + sep + index`), and an empty parent key
yields unqualified child keys at the top level. -/
theorem C8_amended_flatten_leaves (o : ERP.JObj) (sep : String)
    (hgood : ERP.goodObj o = true)
    (hnodup : ((ERP.leavesObj o "" sep).map Prod.fst).Nodup)
    (p : String) (v : ERP.JVal)
    (hleaf : (p, v) ∈ ERP.leavesObj o "" sep) :
    ERP.dictGet? (ERP.flattenTop o sep) p = some v := by
  rw [ERP.flattenTop, ERP.flattenObj_eq o [] "" sep hgood hnodup,
    ERP.dictUpdate_nil_of_nodup _ hnodup]
  exact ERP.dictGet?_of_mem_nodup _ hnodup p v hleaf

/-- `{"a": {"b": 1}, "c": [2, {"d": "x"}]}`. -/
def c8W : ERP.JObj :=
  ERP.JObj.cons "a"
    (ERP.JVal.dict (ERP.JObj.cons "b" (ERP.JVal.int 1) ERP.JObj.nil))
    (ERP.JObj.cons "c"
      (ERP.JVal.list (ERP.JArr.cons (ERP.JVal.int 2)
        (ERP.JArr.cons
          (ERP.JVal.dict (ERP.JObj.cons "d" (ERP.JVal.str "x") ERP.JObj.nil))
          ERP.JArr.nil)))
      ERP.JObj.nil)

/-- C8 witness: the leaf `"x"` of `{"a": {"b": 1}, "c": [2, {"d": "x"}]}` is
stored under `c_1_d`. -/
theorem C8_amended_witness :
    ERP.dictGet? (ERP.flattenTop c8W "_") "c_1_d" = some (ERP.JVal.str "x") :=
  C8_amended_flatten_leaves c8W "_" rfl (by decide) "c_1_d" (ERP.JVal.str "x")
    (by
      show ("c_1_d", ERP.JVal.str "x") ∈
        [("a_b", ERP.JVal.int 1), ("c_0", ERP.JVal.int 2),
         ("c_1_d", ERP.JVal.str "x")]
      exact List.mem_cons_of_mem _ (List.mem_cons_of_mem _
        (List.mem_cons_self _ _)))

/-- The spec's example BAPI response
`{"RETURN": {"TYPE": "E", "MESSAGE": "Invalid data"}, "RESULT": "42"}`. -/
def c2Resp : List (String × ERP.PyVal) :=
  [("RETURN", ERP.PyVal.dict
      [("TYPE", ERP.PyVal.str "E".toList),
       ("MESSAGE", ERP.PyVal.str "Invalid data".toList)]),
   ("RESULT", ERP.PyVal.str "42".toList)]

/-- The BAPIResult the transformer produces for `c2Resp`. -/
def c2Res : ERP.BAPIResult :=
  ⟨false,
   [⟨"E".toList, ERP.PyVal.str "Invalid data".toList, ERP.PyVal.str [],
     ERP.PyVal.str [], "error".toList⟩],
   [("RESULT", ERP.PyVal.str "42".toList)],
   [],
   ⟨0, 0, true, 1⟩⟩

/-- C2: for every BAPI response mapping the parser accepts, the produced
BAPIResult has `success = false` iff at least one of its messages has severity
`error` or `abort` (severities computed by the fixed `S/I/W/E/A` table). -/
theorem C2_success_iff_error_abort (resp : List (String × ERP.PyVal))
    (r : ERP.BAPIResult) (h : ERP.transformBapiResult resp = some r) :
    r.success = false ↔
      ∃ m ∈ r.messages,
        m.severity = "error".toList ∨ m.severity = "abort".toList := by
  unfold ERP.transformBapiResult at h
  split at h
  · rename_i msgs tables data heq1 heq2
    simp only [Option.some.injEq] at h
    subst h
    have hsev := ERP.bapiMessages_severity resp msgs heq1
    show (!(msgs.any fun m => m.type = "E".toList || m.type = "A".toList)) = false
        ↔ ∃ m ∈ msgs, m.severity = "error".toList ∨ m.severity = "abort".toList
    rw [ERP.bool_not_eq_false, List.any_eq_true]
    constructor
    · rintro ⟨m, hm, hp⟩
      refine ⟨m, hm, ?_⟩
      rw [hsev m hm]
      rw [Bool.or_eq_true, decide_eq_true_eq, decide_eq_true_eq] at hp
      exact (ERP.sev_error_abort_iff m.type).mpr hp
    · rintro ⟨m, hm, hp⟩
      refine ⟨m, hm, ?_⟩
      rw [hsev m hm] at hp
      rw [Bool.or_eq_true, decide_eq_true_eq, decide_eq_true_eq]
      exact (ERP.sev_error_abort_iff m.type).mp hp
  · exact absurd h (by simp)

/-- C2 witness: the spec's example response yields `success = false` with one
`error`-severity message, and the equivalence holds there. -/
theorem C2_witness :
    ERP.transformBapiResult c2Resp = some c2Res ∧
    (c2Res.success = false ↔
      ∃ m ∈ c2Res.messages,
        m.severity = "error".toList ∨ m.severity = "abort".toList) :=
  ⟨rfl, C2_success_iff_error_abort c2Resp c2Res rfl⟩

/-- C10: every ParsedTable built from a non-empty table parameter has rows of
exactly the headers' length, in header order: row `i` is the headers mapped
over `row.get(header, '')` plus normalization — keys outside the first row's
keys are dropped, and a missing header contributes the normalized empty
string. -/
theorem C10_table_shape (td : List ERP.PyVal) (t : ERP.SapParsedTable)
    (hne : td ≠ []) (h : ERP.transformSapTable td = some t) :
    ∃ ds : List (List (String × ERP.PyVal)),
      ERP.optMap ERP.pyAsDict td = some ds ∧
      ds.length = td.length ∧
      (∀ d0 rest, ds = d0 :: rest → t.headers = d0.map Prod.fst) ∧
      t.rows = ds.map (fun d =>
        t.headers.map (fun hd =>
          ERP.transformSapFieldVal (ERP.dGetD d hd (ERP.PyVal.str [])))) ∧
      t.rows.length = td.length ∧
      ∀ r ∈ t.rows, r.length = t.headers.length := by
  cases td with
  | nil => exact absurd rfl hne
  | cons v0 vrest =>
    simp only [ERP.transformSapTable] at h
    split at h
    · exact absurd h (by simp)
    · exact absurd h (by simp)
    · rename_i d0 ds' heq
      simp only [Option.some.injEq] at h
      subst h
      refine ⟨d0 :: ds', heq, ERP.optMap_length _ _ _ heq, ?_, rfl, ?_, ?_⟩
      · intro e0 erest hee
        cases hee
        rfl
      · show ((d0 :: ds').map _).length = (v0 :: vrest).length
        rw [List.length_map]
        exact ERP.optMap_length _ _ _ heq
      · intro r hr
        obtain ⟨d, hd2, rfl⟩ := List.mem_map.mp hr
        exact List.length_map _ _

/-- A concrete two-row table parameter: the second row lacks header `B` and
carries an extra key `C`. -/
def c10Td : List ERP.PyVal :=
  [ERP.PyVal.dict [("A", ERP.PyVal.str "x".toList), ("B", ERP.PyVal.str "1".toList)],
   ERP.PyVal.dict [("A", ERP.PyVal.str "y".toList), ("C", ERP.PyVal.int 7)]]

/-- The ParsedTable for `c10Td`: headers from the first row; `C` dropped;
missing `B` in row 2 becomes the normalized empty string. -/
def c10T : ERP.SapParsedTable :=
  ⟨["A", "B"],
   [[ERP.PyVal.str "x".toList, ERP.PyVal.str "1".toList],
    [ERP.PyVal.str "y".toList, ERP.PyVal.str []]],
   2⟩

/-- C10 witness: the shape invariant instantiated on `c10Td`. -/
theorem C10_witness :
    ∃ ds : List (List (String × ERP.PyVal)),
      ERP.optMap ERP.pyAsDict c10Td = some ds ∧
      ds.length = c10Td.length ∧
      (∀ d0 rest, ds = d0 :: rest → c10T.headers = d0.map Prod.fst) ∧
      c10T.rows = ds.map (fun d =>
        c10T.headers.map (fun hd =>
          ERP.transformSapFieldVal (ERP.dGetD d hd (ERP.PyVal.str [])))) ∧
      c10T.rows.length = c10Td.length ∧
      ∀ r ∈ c10T.rows, r.length = c10T.headers.length :=
  C10_table_shape c10Td c10T (by simp [c10Td]) rfl

/-- C6 counterexample: a schema rule with `min_length = 5` on a present,
violating field (`"a"`, length 1 < 5) produces NO validation error from the
record-level validator — `erp_data_validator` never reads `min_length` (or
`pattern`), contradicting the claim that such violations yield a dedicated
error. -/
theorem C6_counterexample :
    ERP.dictGet? [("x", "a")] "x" = some "a" ∧
    ("a" : String).length < 5 ∧
    ERP.erpDataValidator [[("x", "a")]]
        [("x", (⟨false, "string", some 5, none, none⟩ : ERP.FieldRules))]
      = [] := ⟨rfl, by decide, rfl⟩

/-- C6 amended: among the length/pattern constraints, the record-level
validator checks only `max_length`: for every record and every schema entry
whose rule carries a `max_length` constraint, a dedicated "Value too long"
error is reported when the field is present and longer; `min_length` and
`pattern` constraints are not checked by `erp_data_validator` (they exist only
in the separate single-field validator). -/
theorem C6_amended_max_length_error (data : List (List (String × String)))
    (schema : List (String × ERP.FieldRules)) (i : Nat)
    (rec : List (String × String)) (fieldName : String)
    (rules : ERP.FieldRules) (v : String) (m : Nat)
    (hrec : data.get? i = some rec)
    (hschema : (fieldName, rules) ∈ schema)
    (hv : ERP.dictGet? rec fieldName = some v)
    (hm : rules.max_length = some m)
    (hviol : m < v.length) :
    (⟨i, fieldName,
      "Value too long: " ++ toString v.length ++ " > " ++ toString m⟩ :
        ERP.ValidationErr)
      ∈ ERP.erpDataValidator data schema := by
  have herr : (⟨i, fieldName,
      "Value too long: " ++ toString v.length ++ " > " ++ toString m⟩ :
        ERP.ValidationErr) ∈ ERP.fieldChecks i rec fieldName rules := by
    rw [ERP.fieldChecks, hv, hm]
    simp [hviol]
  have hmono1 : ∀ (acc : List ERP.ValidationErr) (fr : String × ERP.FieldRules)
      (x : ERP.ValidationErr), x ∈ acc →
      x ∈ acc ++ ERP.fieldChecks i rec fr.1 fr.2 :=
    fun acc fr x hx => List.mem_append_left _ hx
  have hinner : ∀ acc : List ERP.ValidationErr,
      (⟨i, fieldName,
        "Value too long: " ++ toString v.length ++ " > " ++ toString m⟩ :
          ERP.ValidationErr)
        ∈ schema.foldl (fun es fr => es ++ ERP.fieldChecks i rec fr.1 fr.2) acc := by
    intro acc
    exact ERP.foldl_mem_of_elem _ hmono1 schema (fieldName, rules) hschema _
      (fun a => List.mem_append_right _ herr) acc
  rw [ERP.erpDataValidator]
  exact ERP.foldl_mem_of_elem _
    (fun acc iv x hx => ERP.foldl_mem_mono _
      (fun a fr y hy => List.mem_append_left _ hy) schema acc x hx)
    data.enum (i, rec) (ERP.mem_enum_of_get? data i rec hrec) _
    (fun acc => hinner acc) []

/-- C6 witness: on the record `{"qty": "123456"}` with schema rule
`max_length = 3` the dedicated "Value too long: 6 > 3" error is reported. -/
theorem C6_amended_witness :
    (⟨0, "qty", "Value too long: 6 > 3"⟩ : ERP.ValidationErr)
      ∈ ERP.erpDataValidator [[("qty", "123456")]]
          [("qty", (⟨false, "string", none, some 3, none⟩ : ERP.FieldRules))] :=
  C6_amended_max_length_error [[("qty", "123456")]]
    [("qty", ⟨false, "string", none, some 3, none⟩)] 0 [("qty", "123456")]
    "qty" ⟨false, "string", none, some 3, none⟩ "123456" 3
    rfl (List.mem_singleton.mpr rfl) rfl rfl (by decide)

/-- C9: `group_aggregate` with `op = "mean"` maps each group id present in the
input to the arithmetic mean of the values assigned to that group, and the
result is independent of insertion order (any permutation of the
`(group_id, value)` pairs yields the same mapping). -/
theorem C9_group_mean (pairs pairs2 : List (Int × ℚ))
    (hperm : pairs.Perm pairs2) (g : Int) (hg : g ∈ pairs.map Prod.fst) :
    ERP.dictGet? (ERP.erpGroupAggregationMean pairs) g
        = some ((ERP.groupVals pairs g).sum / ((ERP.groupVals pairs g).length : ℚ)) ∧
    ERP.dictGet? (ERP.erpGroupAggregationMean pairs2) g
        = some ((ERP.groupVals pairs g).sum / ((ERP.groupVals pairs g).length : ℚ)) := by
  have hlen : (ERP.groupVals pairs g).length ≠ 0 := by
    obtain ⟨p, hp, hfst⟩ := List.mem_map.mp hg
    have hmemf : p ∈ pairs.filter (fun q => q.1 = g) :=
      List.mem_filter.mpr ⟨hp, by simp [hfst]⟩
    intro h0
    rw [ERP.groupVals, List.length_map, List.length_eq_zero] at h0
    rw [h0] at hmemf
    simp at hmemf
  have key : ∀ (l : List (Int × ℚ)), g ∈ l.map Prod.fst →
      ERP.dictGet? (ERP.erpGroupAggregationMean l) g
        = some (ERP.fastMean (ERP.groupVals l g)) := by
    intro l hl
    rw [ERP.erpGroupAggregationMean, ERP.dictGet?_map_fastMean,
      ERP.dictGet?_buildGroups, if_pos hl]
    rfl
  have hpv : (ERP.groupVals pairs g).Perm (ERP.groupVals pairs2 g) :=
    (hperm.filter _).map _
  constructor
  · rw [key pairs hg, ERP.fastMean, if_neg hlen]
  · have hg2 : g ∈ pairs2.map Prod.fst := (hperm.map Prod.fst).mem_iff.mp hg
    rw [key pairs2 hg2, ERP.fastMean,
      if_neg (by rw [← hpv.length_eq]; exact hlen),
      ← hpv.sum_eq, ← hpv.length_eq]

/-- C9 witness: at `group_ids = [1,1,2]`, `values = [10,20,5]`, the mean
aggregation yields `{1 : 15, 2 : 5}`. -/
theorem C9_group_mean_witness :
    ERP.dictGet? (ERP.erpGroupAggregationMean [(1, 10), (1, 20), (2, 5)]) 1
        = some 15 ∧
    ERP.dictGet? (ERP.erpGroupAggregationMean [(1, 10), (1, 20), (2, 5)]) 2
        = some 5 := by
  constructor
  · have h := C9_group_mean [(1, 10), (1, 20), (2, 5)] [(1, 10), (1, 20), (2, 5)]
      (List.Perm.refl _) 1 (by decide)
    rw [h.1]
    norm_num [ERP.groupVals, List.filter_cons, List.sum_cons]
  · have h := C9_group_mean [(1, 10), (1, 20), (2, 5)] [(1, 10), (1, 20), (2, 5)]
      (List.Perm.refl _) 2 (by decide)
    rw [h.1]
    norm_num [ERP.groupVals, List.filter_cons, List.sum_cons]

/-- C5 (code bug): the large-file streaming variant never invokes the
caller-supplied callback — `stream_process` ignores its `callback` argument
and `process_large_file_fast` hands chunks to a local identity placeholder —
so even a callback that raises does not abort processing: on a header plus two
data rows with `chunk_size = 1`, a raising handler still yields a successful
line count of 2, and the result is the same for every callback. -/
theorem C5_callback_ignored :
    ERP.streamProcess ["id,name".toList, "1,a".toList, "2,b".toList] 1
        (fun _ => Except.error "handler failure") ',' '"' = Except.ok 2 ∧
    ∀ cb : List ERP.CsvRecord → Except String Unit,
      ERP.streamProcess ["id,name".toList, "1,a".toList, "2,b".toList] 1 cb ',' '"'
        = Except.ok 2 :=
  ⟨rfl, fun _ => rfl⟩
